import Mathlib

/-!
# MinervaCache: a shallow embedding of the cache engine

This file embeds the core cache engine of the `minervacache` repository
(`cache/minerva.go`): a bucketed key-value store with one shared insertion/usage
order list, per-call eviction policies, and TTL expiry.

Modelling decisions, mirroring the Go source:

* `time.Time` values are modelled as `Nat` nanosecond-style instants; the Go zero
  time (`time.Time{}`, for which `IsZero()` holds) is modelled as `0`, and
  `a.After(b)` is `b < a`.  The current wall-clock instant (`time.Now()`) is an
  explicit `now : Nat` argument of each operation that reads the clock.
* `time.Duration` (a signed 64-bit integer) is modelled as `Int`.
* Go maps are modelled as association lists (`lookupA` / `setA` / `removeA`
  mirror `m[k]`, `m[k] = v`, `delete(m, k)`).
* `container/list` elements are modelled by an arena: every `list.Element` ever
  allocated by `PushBack` gets a fresh identifier (`nextId`), its current
  `Value` is recorded in `items`, and the linked list itself is the sequence of
  identifiers `order` (front at the head, back at the end).  Buckets map keys to
  element identifiers, exactly as the Go bucket maps store `*list.Element`
  pointers.  `list.Remove` removes an identifier from `order` but the element
  object stays readable in `items`, as in Go.
* A Go `nil`-pointer dereference (which aborts the process) is modelled by the
  operation returning `none`; a normal return with a `nil` error is `some`.
* The mutex, the background goroutine plumbing (`stop`, `startTTLCheck`) and the
  metrics sink are concurrency/telemetry plumbing outside the per-operation
  state transition; operations are already serialized by the single lock, so the
  embedding is the locked-section state transition.  The active sweep body
  (`checkExpiredItems`) is embedded directly.
-/

/-- Association-list lookup, modelling Go `m[k]` (comma-ok form). -/
def lookupA {κ α : Type} [DecidableEq κ] (k : κ) : List (κ × α) → Option α
  | [] => none
  | p :: rest => if p.1 = k then some p.2 else lookupA k rest

/-- Association-list update, modelling Go `m[k] = v`. -/
def setA {κ α : Type} [DecidableEq κ] (k : κ) (v : α) : List (κ × α) → List (κ × α)
  | [] => [(k, v)]
  | p :: rest => if p.1 = k then (k, v) :: rest else p :: setA k v rest

/-- Association-list deletion, modelling Go `delete(m, k)`. -/
def removeA {κ α : Type} [DecidableEq κ] (k : κ) : List (κ × α) → List (κ × α)
  | [] => []
  | p :: rest => if p.1 = k then removeA k rest else p :: removeA k rest

/-- Eviction policies, from `cache/interface.go` (`NoEvictionPolicy` is the
`iota` zero value, i.e. the unspecified policy). -/
inductive EvictionPolicy : Type
  | NoEvictionPolicy
  | OldestEvictionPolicy
  | NewestEvictionPolicy
  | LRUEvictionPolicy
  | MRUEvictionPolicy
  deriving DecidableEq, Repr

/-- The engine's error values, from `cache/interface.go`. -/
inductive CacheError : Type
  | cacheFull
  | keyNotFound
  | keyExpired
  | bucketNotFound
  | invalidPolicy
  deriving DecidableEq, Repr

/-- Per-call options, from `cache/interface.go`: a TTL duration (0 = no
expiration) and the requested eviction policy. -/
structure Options : Type where
  TTL : Int
  EvictionPolicy : EvictionPolicy
  deriving DecidableEq, Repr

/-- One cached entry, mirroring `cacheItem` in `cache/minerva.go`:
owning bucket, key, opaque byte payload, absolute expiry instant
(`0` = the Go zero time = never expires). -/
structure cacheItem : Type where
  bucket : String
  key : String
  value : List Nat
  expiresAt : Nat
  deriving DecidableEq, Repr

/-- The cache state, mirroring `MinervaCache` in `cache/minerva.go`.
`capacity` is the Go `int` capacity.  `buckets` maps bucket names to per-bucket
maps from key to element identifier; `order` is the doubly linked order list as
a sequence of element identifiers (front first); `items` is the arena giving
each allocated element's current `Value`; `nextId` is the allocator counter for
fresh elements. -/
structure MinervaCache : Type where
  capacity : Int
  nextId : Nat
  items : List (Nat × cacheItem)
  buckets : List (String × List (String × Nat))
  order : List Nat
  deriving DecidableEq, Repr

/-- Constructor `NewMinervaCache` from `cache/minerva.go`: empty bucket map, empty order
list (the TTL-check interval, stop channel and metrics sink are background/
telemetry plumbing not part of the per-operation state transition). -/
def NewMinervaCache (capacity : Int) : MinervaCache :=
  { capacity := capacity, nextId := 0, items := [], buckets := [], order := [] }

/-- Helper `getBucket` from `cache/minerva.go`: return the bucket's map, creating and
registering an empty one if the bucket does not exist yet. -/
def MinervaCache.getBucket (st : MinervaCache) (bucket : String) :
    MinervaCache × List (String × Nat) :=
  match lookupA bucket st.buckets with
  | some mcb => (st, mcb)
  | none => ({ st with buckets := st.buckets ++ [(bucket, [])] }, [])

/-- Operation `mc.order.MoveToBack(el)` from `container/list`: move the element to the
back of the list; no-op when the element is not in the list. -/
def MinervaCache.moveToBack (st : MinervaCache) (id : Nat) : MinervaCache :=
  if id ∈ st.order then { st with order := st.order.erase id ++ [id] } else st

/-- Helper `deleteAndRemoveFromInsertOrder` from `cache/minerva.go`: remove the
element from the order list, delete its key from its bucket (`item.bucket` /
`item.key` are read from the element's `Value`), and delete the bucket from the
bucket map if it became empty.  When the element's bucket is no longer in the
bucket map, the Go `delete` on the `nil` map and the `len(nil) == 0` bucket
removal are both no-ops. -/
def MinervaCache.deleteAndRemoveFromInsertOrder (st : MinervaCache) (id : Nat) :
    MinervaCache :=
  let st1 := { st with order := st.order.erase id }
  match lookupA id st.items with
  | none => st1
  | some item =>
    match lookupA item.bucket st1.buckets with
    | none => st1
    | some mcb =>
      let mcb' := removeA item.key mcb
      if mcb' = [] then
        { st1 with buckets := removeA item.bucket st1.buckets }
      else
        { st1 with buckets := setA item.bucket mcb' st1.buckets }

/-- Method `evict` from `cache/minerva.go`: pick the back element for MRU/Newest and
the front element otherwise, then remove it.  When the order list is empty the
picked element is the Go `nil` pointer and `deleteAndRemoveFromInsertOrder`
dereferences it, crashing the process: that is the `none` result. -/
def MinervaCache.evict (st : MinervaCache) (policy : EvictionPolicy) :
    Option MinervaCache :=
  let el := match policy with
    | EvictionPolicy.MRUEvictionPolicy | EvictionPolicy.NewestEvictionPolicy =>
        st.order.getLast?
    | _ => st.order.head?
  match el with
  | none => none
  | some id => some (st.deleteAndRemoveFromInsertOrder id)

/-- Method `Set` from `cache/minerva.go`.  Creates the bucket if absent; computes the
expiry instant (`now + TTL` when `TTL > 0`, else the zero time); on an existing
key overwrites the element's `Value` and, for LRU/MRU, moves it to the back; on
a new key first evicts under the requested policy when `order.Len() >=
capacity`, then pushes a fresh element to the back and stores it in the bucket
map *object obtained before eviction* — when eviction emptied and deleted that
very bucket, the Go write `mcb[key] = el` lands in the orphaned map and is not
visible through `mc.buckets`, which the final match reproduces.  Returns the
nil error (`some` state) on every path that does not crash. -/
def MinervaCache.Set (st : MinervaCache) (bucket key : String) (value : List Nat)
    (opts : Options) (now : Nat) : Option MinervaCache :=
  let p := st.getBucket bucket
  let st1 := p.1
  let mcb := p.2
  let expiresAt := if 0 < opts.TTL then now + opts.TTL.toNat else 0
  let item : cacheItem :=
    { bucket := bucket, key := key, value := value, expiresAt := expiresAt }
  match lookupA key mcb with
  | some id =>
    let st2 := { st1 with items := setA id item st1.items }
    some (if opts.EvictionPolicy = EvictionPolicy.LRUEvictionPolicy ∨
             opts.EvictionPolicy = EvictionPolicy.MRUEvictionPolicy
          then st2.moveToBack id else st2)
  | none =>
    let st2opt := if st1.capacity ≤ (st1.order.length : Int)
                  then st1.evict opts.EvictionPolicy else some st1
    match st2opt with
    | none => none
    | some st2 =>
      let id := st2.nextId
      let st3 := { st2 with
        nextId := id + 1,
        items := (id, item) :: st2.items,
        order := st2.order ++ [id] }
      match lookupA bucket st3.buckets with
      | some mcbNow =>
          some { st3 with buckets := setA bucket (setA key id mcbNow) st3.buckets }
      | none => some st3

/-- Method `Get` from `cache/minerva.go`.  First, when `order.Len() >= capacity`,
evicts one entry under the Oldest policy regardless of the caller's options
(`none` when that eviction dereferences `nil`).  Then: missing bucket →
`ErrBucketNotFound`; missing key → `ErrKeyNotFound`; entry with a non-zero
expiry instant strictly before `now` → remove it and `ErrKeyExpired`; otherwise
move the element to the back for LRU/MRU and return the stored value. -/
def MinervaCache.Get (st : MinervaCache) (bucket key : String) (opts : Options)
    (now : Nat) : Option (MinervaCache × Except CacheError (List Nat)) :=
  let st1opt := if st.capacity ≤ (st.order.length : Int)
                then st.evict EvictionPolicy.OldestEvictionPolicy else some st
  match st1opt with
  | none => none
  | some st1 =>
    match lookupA bucket st1.buckets with
    | none => some (st1, Except.error CacheError.bucketNotFound)
    | some mcb =>
      match lookupA key mcb with
      | none => some (st1, Except.error CacheError.keyNotFound)
      | some id =>
        match lookupA id st1.items with
        | none => none
        | some item =>
          if item.expiresAt ≠ 0 ∧ item.expiresAt < now then
            some (st1.deleteAndRemoveFromInsertOrder id,
                  Except.error CacheError.keyExpired)
          else
            let st2 := if opts.EvictionPolicy = EvictionPolicy.LRUEvictionPolicy ∨
                          opts.EvictionPolicy = EvictionPolicy.MRUEvictionPolicy
                       then st1.moveToBack id else st1
            some (st2, Except.ok item.value)

/-- Method `Delete` from `cache/minerva.go`: missing bucket → `ErrBucketNotFound`;
present key → remove the entry (and its order node, and the bucket if emptied)
and return the nil error; otherwise `ErrKeyNotFound`. -/
def MinervaCache.Delete (st : MinervaCache) (bucket key : String) :
    MinervaCache × Option CacheError :=
  match lookupA bucket st.buckets with
  | none => (st, some CacheError.bucketNotFound)
  | some mcb =>
    match lookupA key mcb with
    | some id => (st.deleteAndRemoveFromInsertOrder id, none)
    | none => (st, some CacheError.keyNotFound)

/-- The loop body of `checkExpiredItems`: remove the element when its non-zero
expiry instant is strictly before `now` (`!item.expiresAt.IsZero() &&
time.Now().After(item.expiresAt)`), otherwise leave the state alone. -/
def MinervaCache.removeIfExpired (s : MinervaCache) (now : Nat) (id : Nat) :
    MinervaCache :=
  match lookupA id s.items with
  | none => s
  | some item =>
    if item.expiresAt ≠ 0 ∧ item.expiresAt < now then
      s.deleteAndRemoveFromInsertOrder id
    else s

/-- Method `checkExpiredItems` from `cache/minerva.go` (the body of one active-sweep
pass): walk every key of every bucket and remove the entries whose non-zero
expiry instant is strictly before `now`.  Go iterates the maps in an
unspecified order; the walk is over the snapshot of (bucket, key) pairs, and
each removal touches only its own entry. -/
def MinervaCache.checkExpiredItems (st : MinervaCache) (now : Nat) : MinervaCache :=
  let ids := st.buckets.flatMap (fun bm => bm.2.map Prod.snd)
  ids.foldl (fun s id => s.removeIfExpired now id) st

/-- One engine operation together with the wall-clock instant at which it runs
(`Delete` never reads the clock). -/
inductive CacheOp : Type
  | set (bucket key : String) (value : List Nat) (opts : Options) (now : Nat)
  | get (bucket key : String) (opts : Options) (now : Nat)
  | del (bucket key : String)
  | sweep (now : Nat)

/-- Apply one operation to a cache state (`none` = the operation crashed). -/
def MinervaCache.applyOp (st : MinervaCache) : CacheOp → Option MinervaCache
  | CacheOp.set b k v o now => st.Set b k v o now
  | CacheOp.get b k o now => (st.Get b k o now).map Prod.fst
  | CacheOp.del b k => some (st.Delete b k).1
  | CacheOp.sweep now => some (st.checkExpiredItems now)

/-- Run a sequence of operations from a starting state. -/
def runOps (st : MinervaCache) (ops : List CacheOp) : Option MinervaCache :=
  ops.foldl (fun acc op => acc.bind (fun s => s.applyOp op)) (some st)

example :
    ((NewMinervaCache 2).Set "b" "k" [7] ⟨0, EvictionPolicy.LRUEvictionPolicy⟩ 0) =
      some { capacity := 2, nextId := 1,
             items := [(0, ⟨"b", "k", [7], 0⟩)],
             buckets := [("b", [("k", 0)])], order := [0] } := by
  decide

/-! ## Basic lemmas about the association-list and list-element operations -/

theorem lookupA_setA_self {κ α : Type} [DecidableEq κ] (k : κ) (v : α) :
    ∀ l : List (κ × α), lookupA k (setA k v l) = some v := by
  intro l
  induction l with
  | nil => simp [setA, lookupA]
  | cons p rest ih =>
    by_cases h : p.1 = k
    · simp [setA, h, lookupA]
    · simp [setA, h, lookupA, ih]

theorem lookupA_append_of_eq_none {κ α : Type} [DecidableEq κ] {k : κ}
    {l : List (κ × α)} (h : lookupA k l = none) (l₂ : List (κ × α)) :
    lookupA k (l ++ l₂) = lookupA k l₂ := by
  induction l with
  | nil => simp
  | cons p rest ih =>
    by_cases hp : p.1 = k
    · simp [lookupA, hp] at h
    · rw [List.cons_append]
      simp only [lookupA, hp, if_false] at h ⊢
      exact ih h

theorem mem_of_head?_eq_some {α : Type} {l : List α} {a : α}
    (h : l.head? = some a) : a ∈ l := by
  cases l with
  | nil => simp at h
  | cons x xs => simp at h; simp [h]

theorem mem_of_getLast?_eq_some {α : Type} {l : List α} {a : α}
    (h : l.getLast? = some a) : a ∈ l := by
  cases hl : l with
  | nil => subst hl; simp at h
  | cons x xs =>
    subst hl
    rw [List.getLast?_eq_getLast_of_ne_nil (List.cons_ne_nil x xs)] at h
    have hmem := List.getLast_mem (List.cons_ne_nil x xs)
    exact Option.some_inj.mp h ▸ hmem

/-! ## Field-preservation lemmas for the state-transition helpers -/

@[simp] theorem DAR_capacity (st : MinervaCache) (id : Nat) :
    (st.deleteAndRemoveFromInsertOrder id).capacity = st.capacity := by
  unfold MinervaCache.deleteAndRemoveFromInsertOrder
  split
  · rfl
  · dsimp only
    split
    · rfl
    · split <;> rfl

@[simp] theorem DAR_order (st : MinervaCache) (id : Nat) :
    (st.deleteAndRemoveFromInsertOrder id).order = st.order.erase id := by
  unfold MinervaCache.deleteAndRemoveFromInsertOrder
  split
  · rfl
  · dsimp only
    split
    · rfl
    · split <;> rfl

@[simp] theorem DAR_items (st : MinervaCache) (id : Nat) :
    (st.deleteAndRemoveFromInsertOrder id).items = st.items := by
  unfold MinervaCache.deleteAndRemoveFromInsertOrder
  split
  · rfl
  · dsimp only
    split
    · rfl
    · split <;> rfl

@[simp] theorem DAR_nextId (st : MinervaCache) (id : Nat) :
    (st.deleteAndRemoveFromInsertOrder id).nextId = st.nextId := by
  unfold MinervaCache.deleteAndRemoveFromInsertOrder
  split
  · rfl
  · dsimp only
    split
    · rfl
    · split <;> rfl

@[simp] theorem moveToBack_capacity (st : MinervaCache) (id : Nat) :
    (st.moveToBack id).capacity = st.capacity := by
  unfold MinervaCache.moveToBack; split <;> rfl

@[simp] theorem moveToBack_items (st : MinervaCache) (id : Nat) :
    (st.moveToBack id).items = st.items := by
  unfold MinervaCache.moveToBack; split <;> rfl

@[simp] theorem moveToBack_buckets (st : MinervaCache) (id : Nat) :
    (st.moveToBack id).buckets = st.buckets := by
  unfold MinervaCache.moveToBack; split <;> rfl

@[simp] theorem moveToBack_nextId (st : MinervaCache) (id : Nat) :
    (st.moveToBack id).nextId = st.nextId := by
  unfold MinervaCache.moveToBack; split <;> rfl

@[simp] theorem moveToBack_order_length (st : MinervaCache) (id : Nat) :
    (st.moveToBack id).order.length = st.order.length := by
  unfold MinervaCache.moveToBack
  split
  · next hmem =>
    have h1 := List.length_erase_add_one hmem
    simp only [List.length_append, List.length_cons, List.length_nil]
    omega
  · rfl

@[simp] theorem getBucket_capacity (st : MinervaCache) (b : String) :
    (st.getBucket b).1.capacity = st.capacity := by
  unfold MinervaCache.getBucket; split <;> rfl

@[simp] theorem getBucket_order (st : MinervaCache) (b : String) :
    (st.getBucket b).1.order = st.order := by
  unfold MinervaCache.getBucket; split <;> rfl

@[simp] theorem getBucket_items (st : MinervaCache) (b : String) :
    (st.getBucket b).1.items = st.items := by
  unfold MinervaCache.getBucket; split <;> rfl

@[simp] theorem getBucket_nextId (st : MinervaCache) (b : String) :
    (st.getBucket b).1.nextId = st.nextId := by
  unfold MinervaCache.getBucket; split <;> rfl

theorem getBucket_lookup (st : MinervaCache) (b : String) :
    lookupA b (st.getBucket b).1.buckets = some (st.getBucket b).2 := by
  unfold MinervaCache.getBucket
  cases h : lookupA b st.buckets with
  | some mcb => simp [h]
  | none =>
    simp only [h]
    rw [lookupA_append_of_eq_none h]
    simp [lookupA]

/-- Eviction on a non-empty order list succeeds, removes exactly one node, and
leaves the capacity, arena and allocator untouched. -/
theorem evict_of_ne_nil (st : MinervaCache) (policy : EvictionPolicy)
    (h : st.order ≠ []) :
    ∃ st', st.evict policy = some st' ∧
      st'.order.length + 1 = st.order.length ∧
      st'.capacity = st.capacity ∧ st'.items = st.items ∧
      st'.nextId = st.nextId := by
  unfold MinervaCache.evict
  have hlast := List.getLast?_eq_getLast_of_ne_nil h
  have hlastmem : st.order.getLast h ∈ st.order := List.getLast_mem h
  have hheadmem : ∀ a, st.order.head? = some a → a ∈ st.order := by
    intro a ha; exact mem_of_head?_eq_some ha
  cases policy <;> simp only []
  case MRUEvictionPolicy =>
    rw [hlast]
    exact ⟨_, rfl, by simpa using List.length_erase_add_one hlastmem, by simp,
      by simp, by simp⟩
  case NewestEvictionPolicy =>
    rw [hlast]
    exact ⟨_, rfl, by simpa using List.length_erase_add_one hlastmem, by simp,
      by simp, by simp⟩
  all_goals {
    cases hh : st.order.head? with
    | none => exact absurd (List.head?_eq_none_iff.mp hh) h
    | some a =>
      exact ⟨_, rfl, by simpa using List.length_erase_add_one (hheadmem a hh),
        by simp, by simp, by simp⟩
  }

theorem evict_some_spec {st st' : MinervaCache} {policy : EvictionPolicy}
    (h : st.evict policy = some st') :
    st'.order.length + 1 = st.order.length ∧
    st'.capacity = st.capacity ∧ st'.items = st.items ∧
    st'.nextId = st.nextId := by
  unfold MinervaCache.evict at h
  cases policy <;> simp only [] at h <;>
  first
  | (cases hh : st.order.getLast? with
     | none => rw [hh] at h; cases h
     | some a =>
       rw [hh] at h
       cases h
       exact ⟨by simpa using List.length_erase_add_one (mem_of_getLast?_eq_some hh),
         by simp, by simp, by simp⟩)
  | (cases hh : st.order.head? with
     | none => rw [hh] at h; cases h
     | some a =>
       rw [hh] at h
       cases h
       exact ⟨by simpa using List.length_erase_add_one (mem_of_head?_eq_some hh),
         by simp, by simp, by simp⟩)


/-! ## Operation-level size/capacity lemmas -/

/-- A successful `Set` keeps the capacity; it keeps the number of order nodes
(existing key, or eviction followed by insertion) unless the cache was strictly
below capacity, in which case it adds exactly one node. -/
theorem Set_some_spec {st st' : MinervaCache} {b k : String} {v : List Nat}
    {o : Options} {now : Nat} (h : st.Set b k v o now = some st') :
    st'.capacity = st.capacity ∧
    (st'.order.length = st.order.length ∨
      (¬ st.capacity ≤ (st.order.length : Int) ∧
        st'.order.length = st.order.length + 1)) := by
  unfold MinervaCache.Set at h
  dsimp only at h
  split at h
  · -- existing key
    rw [Option.some_inj] at h
    subst h
    constructor
    · split <;> simp
    · left; split <;> simp
  · -- new key
    split at h
    · -- the eviction step crashed: contradiction with a successful return
      cases h
    · rename_i st2 hif
      have hfacts : st2.capacity = st.capacity ∧
          ((st.capacity ≤ (st.order.length : Int) ∧
              st2.order.length + 1 = st.order.length) ∨
           (¬ st.capacity ≤ (st.order.length : Int) ∧
              st2.order.length = st.order.length)) := by
        split at hif
        · rename_i hg
          obtain ⟨hlen2, hcap2, _, _⟩ := evict_some_spec hif
          simp only [getBucket_capacity, getBucket_order] at hlen2 hcap2 hg
          exact ⟨hcap2, Or.inl ⟨hg, hlen2⟩⟩
        · rename_i hg
          rw [Option.some_inj] at hif
          subst hif
          simp only [getBucket_capacity, getBucket_order] at hg
          exact ⟨by simp, Or.inr ⟨hg, by simp⟩⟩
      obtain ⟨hcap2, hor⟩ := hfacts
      split at h <;>
      · rw [Option.some_inj] at h
        subst h
        refine ⟨hcap2, ?_⟩
        simp only [List.length_append, List.length_cons, List.length_nil]
        rcases hor with ⟨hg, hl⟩ | ⟨hg, hl⟩
        · left; omega
        · right; exact ⟨hg, by omega⟩

/-- A successful `Get` keeps the capacity and never increases the number of
order nodes. -/
theorem Get_some_spec {st st' : MinervaCache} {r : Except CacheError (List Nat)}
    {b k : String} {o : Options} {now : Nat}
    (h : st.Get b k o now = some (st', r)) :
    st'.capacity = st.capacity ∧ st'.order.length ≤ st.order.length := by
  unfold MinervaCache.Get at h
  dsimp only at h
  split at h
  · -- the defensive eviction crashed: contradiction with a successful return
    cases h
  · rename_i st1 hif
    have hfacts : st1.capacity = st.capacity ∧
        st1.order.length ≤ st.order.length := by
      split at hif
      · obtain ⟨hlen1, hcap1, _, _⟩ := evict_some_spec hif
        exact ⟨hcap1, by omega⟩
      · rw [Option.some_inj] at hif
        subst hif
        exact ⟨rfl, le_refl _⟩
    obtain ⟨hcap1, hle1⟩ := hfacts
    split at h
    · rw [Option.some_inj] at h
      injection h with h1 h2
      subst h1
      exact ⟨hcap1, hle1⟩
    · split at h
      · rw [Option.some_inj] at h
        injection h with h1 h2
        subst h1
        exact ⟨hcap1, hle1⟩
      · split at h
        · cases h
        · split at h
          · rw [Option.some_inj] at h
            injection h with h1 h2
            subst h1
            refine ⟨by simpa using hcap1, ?_⟩
            simp only [DAR_order]
            exact le_trans (List.erase_sublist _ st1.order).length_le hle1
          · rw [Option.some_inj] at h
            injection h with h1 h2
            subst h1
            constructor
            · split <;> simpa using hcap1
            · split <;> simpa using hle1

/-- Method `Delete` keeps the capacity and never increases the number of order
nodes. -/
theorem Delete_spec (st : MinervaCache) (b k : String) :
    (st.Delete b k).1.capacity = st.capacity ∧
    (st.Delete b k).1.order.length ≤ st.order.length := by
  unfold MinervaCache.Delete
  split
  · exact ⟨rfl, le_refl _⟩
  · split
    · refine ⟨by simp, ?_⟩
      simp only [DAR_order]
      exact (List.erase_sublist _ st.order).length_le
    · exact ⟨rfl, le_refl _⟩

@[simp] theorem removeIfExpired_capacity (s : MinervaCache) (now id : Nat) :
    (s.removeIfExpired now id).capacity = s.capacity := by
  unfold MinervaCache.removeIfExpired
  split
  · rfl
  · split <;> simp

theorem removeIfExpired_length (s : MinervaCache) (now id : Nat) :
    (s.removeIfExpired now id).order.length ≤ s.order.length := by
  unfold MinervaCache.removeIfExpired
  split
  · exact le_refl _
  · split
    · simp only [DAR_order]
      exact (List.erase_sublist _ s.order).length_le
    · exact le_refl _

theorem foldl_removeIfExpired_spec (now : Nat) :
    ∀ (ids : List Nat) (s : MinervaCache),
      (ids.foldl (fun s id => s.removeIfExpired now id) s).capacity = s.capacity ∧
      (ids.foldl (fun s id => s.removeIfExpired now id) s).order.length ≤
        s.order.length := by
  intro ids
  induction ids with
  | nil => intro s; exact ⟨rfl, le_refl _⟩
  | cons id rest ih =>
    intro s
    rw [List.foldl_cons]
    obtain ⟨hc, hl⟩ := ih (s.removeIfExpired now id)
    exact ⟨by rw [hc, removeIfExpired_capacity],
      le_trans hl (removeIfExpired_length s now id)⟩

theorem checkExpiredItems_spec (st : MinervaCache) (now : Nat) :
    (st.checkExpiredItems now).capacity = st.capacity ∧
    (st.checkExpiredItems now).order.length ≤ st.order.length := by
  unfold MinervaCache.checkExpiredItems
  exact foldl_removeIfExpired_spec now _ st

/-! ## The size invariant and operation sequences -/

/-- The engine's size invariant: positive capacity and no more order nodes than
the capacity allows. -/
def SizeInv (st : MinervaCache) : Prop :=
  1 ≤ st.capacity ∧ (st.order.length : Int) ≤ st.capacity

theorem applyOp_SizeInv {st st' : MinervaCache} {op : CacheOp}
    (hinv : SizeInv st) (h : st.applyOp op = some st') :
    SizeInv st' ∧ st'.capacity = st.capacity := by
  obtain ⟨hcap, hlen⟩ := hinv
  cases op with
  | set b k v o now =>
    have h' : st.Set b k v o now = some st' := h
    obtain ⟨hc, hor⟩ := Set_some_spec h'
    refine ⟨⟨hc ▸ hcap, ?_⟩, hc⟩
    rw [hc]
    rcases hor with heq | ⟨hlt, heq⟩ <;> rw [heq] <;> omega
  | get b k o now =>
    have h' : (st.Get b k o now).map Prod.fst = some st' := h
    rw [Option.map_eq_some'] at h'
    obtain ⟨⟨st1, r⟩, hget, hfst⟩ := h'
    dsimp only at hfst
    subst hfst
    obtain ⟨hc, hle⟩ := Get_some_spec hget
    refine ⟨⟨hc ▸ hcap, ?_⟩, hc⟩
    rw [hc]
    omega
  | del b k =>
    have h' : some (st.Delete b k).1 = some st' := h
    rw [Option.some_inj] at h'
    obtain ⟨hc, hle⟩ := Delete_spec st b k
    subst h'
    refine ⟨⟨hc ▸ hcap, ?_⟩, hc⟩
    rw [hc]
    omega
  | sweep now =>
    have h' : some (st.checkExpiredItems now) = some st' := h
    rw [Option.some_inj] at h'
    obtain ⟨hc, hle⟩ := checkExpiredItems_spec st now
    subst h'
    refine ⟨⟨hc ▸ hcap, ?_⟩, hc⟩
    rw [hc]
    omega

theorem foldl_bind_none (ops : List CacheOp) :
    ops.foldl (fun acc op => acc.bind (fun s => s.applyOp op))
      (none : Option MinervaCache) = none := by
  induction ops with
  | nil => rfl
  | cons op rest ih => rw [List.foldl_cons]; exact ih

theorem runOps_cons (st : MinervaCache) (op : CacheOp) (ops : List CacheOp) :
    runOps st (op :: ops) = (st.applyOp op).bind (fun s => runOps s ops) := by
  unfold runOps
  rw [List.foldl_cons]
  have hstep : ((some st).bind fun s => s.applyOp op) = st.applyOp op := rfl
  rw [hstep]
  cases h : st.applyOp op with
  | none => exact foldl_bind_none ops
  | some s => rfl

theorem runOps_SizeInv :
    ∀ (ops : List CacheOp) (st st' : MinervaCache),
      SizeInv st → runOps st ops = some st' →
      SizeInv st' ∧ st'.capacity = st.capacity := by
  intro ops
  induction ops with
  | nil =>
    intro st st' hinv h
    simp only [runOps, List.foldl_nil, Option.some_inj] at h
    cases h; exact ⟨hinv, rfl⟩
  | cons op rest ih =>
    intro st st' hinv h
    rw [runOps_cons] at h
    cases hop : st.applyOp op with
    | none => rw [hop] at h; cases h
    | some s1 =>
      rw [hop] at h
      have h' : runOps s1 rest = some st' := h
      obtain ⟨hinv1, hcap1⟩ := applyOp_SizeInv hinv hop
      obtain ⟨hinv', hcap'⟩ := ih s1 st' hinv1 h'
      exact ⟨hinv', hcap'.trans hcap1⟩

/-- With a positive capacity, `Set` always returns the nil error: whenever the
eviction guard fires, `capacity ≤ order.Len()` forces the order list to be
non-empty, so the victim element exists. -/
theorem Set_isSome (st : MinervaCache) (b k : String) (v : List Nat)
    (o : Options) (now : Nat) (hcap : 1 ≤ st.capacity) :
    ∃ st', st.Set b k v o now = some st' := by
  cases hval : st.Set b k v o now with
  | some st' => exact ⟨st', rfl⟩
  | none =>
    exfalso
    unfold MinervaCache.Set at hval
    dsimp only at hval
    split at hval
    · cases hval
    · split at hval
      · rename_i hnone
        split at hnone
        · rename_i hg
          simp only [getBucket_capacity, getBucket_order] at hg
          have hpos : 0 < st.order.length := by omega
          have hne : (st.getBucket b).1.order ≠ [] := by
            simp only [getBucket_order]
            exact List.length_pos.mp hpos
          obtain ⟨st2, hev, _, _, _, _⟩ :=
            evict_of_ne_nil (st.getBucket b).1 o.EvictionPolicy hne
          rw [hev] at hnone
          cases hnone
        · cases hnone
      · split at hval <;> cases hval

/-- A key is new for `Set`: its bucket either does not exist yet or does not
contain the key. -/
def newKey (st : MinervaCache) (b k : String) : Prop :=
  ∀ mcb, lookupA b st.buckets = some mcb → lookupA k mcb = none

theorem getBucket_snd_new {st : MinervaCache} {b k : String}
    (hnew : newKey st b k) : lookupA k (st.getBucket b).2 = none := by
  unfold MinervaCache.getBucket
  cases hbk : lookupA b st.buckets with
  | some mcb =>
    dsimp only
    exact hnew mcb hbk
  | none => rfl

/-- A `Set` of a new key that returns while the store is at (or above)
capacity first evicts exactly one entry under the requested policy and then
appends one fresh node at the back. -/
theorem Set_new_full_spec {st st' : MinervaCache} {b k : String} {v : List Nat}
    {o : Options} {now : Nat}
    (hset : st.Set b k v o now = some st')
    (hnew : newKey st b k)
    (hg : st.capacity ≤ (st.order.length : Int)) :
    ∃ st2, (st.getBucket b).1.evict o.EvictionPolicy = some st2 ∧
      st2.order.length + 1 = st.order.length ∧
      st'.order = st2.order ++ [st2.nextId] := by
  unfold MinervaCache.Set at hset
  dsimp only at hset
  split at hset
  · rename_i id heq
    rw [getBucket_snd_new hnew] at heq
    cases heq
  · split at hset
    · cases hset
    · rename_i st2 hif
      split at hif
      · obtain ⟨hlen2, _, _, _⟩ := evict_some_spec hif
        simp only [getBucket_order] at hlen2
        split at hset <;>
        · rw [Option.some_inj] at hset
          subst hset
          exact ⟨st2, hif, hlen2, rfl⟩
      · rename_i hgneg
        exfalso
        simp only [getBucket_capacity, getBucket_order] at hgneg
        exact hgneg hg

/-- C1. Capacity invariant: starting from a fresh cache with capacity `C ≥ 1`,
after any sequence of operations that returns normally the total number of live
entries (order-list nodes, equivalently entries reachable from all buckets
together under the 1:1 correspondence) is at most `C`; and a `Set` of a new key
arriving when the store holds exactly `C` entries evicts exactly one entry
(under the requested policy) before appending the new one, leaving exactly `C`
entries. -/
theorem c1_capacity_invariant (C : Nat) (hC : 1 ≤ C) (ops : List CacheOp)
    (st : MinervaCache)
    (hrun : runOps (NewMinervaCache (C : Int)) ops = some st) :
    st.order.length ≤ C ∧
    (∀ (b k : String) (v : List Nat) (o : Options) (now : Nat),
      newKey st b k → st.order.length = C →
      ∃ st', st.Set b k v o now = some st' ∧ st'.order.length = C ∧
        ∃ st2, (st.getBucket b).1.evict o.EvictionPolicy = some st2 ∧
          st2.order.length + 1 = C ∧ st'.order = st2.order ++ [st2.nextId]) := by
  have hinv0 : SizeInv (NewMinervaCache (C : Int)) := by
    refine ⟨?_, by simp [NewMinervaCache]⟩
    show (1 : Int) ≤ (C : Int)
    exact_mod_cast hC
  obtain ⟨⟨hcap', hlen'⟩, hcapeq⟩ := runOps_SizeInv ops _ st hinv0 hrun
  have hcapC : st.capacity = (C : Int) := by
    simpa [NewMinervaCache] using hcapeq
  constructor
  · rw [hcapC] at hlen'
    exact_mod_cast hlen'
  · intro b k v o now hnew hfull
    have hcap1 : 1 ≤ st.capacity := by rw [hcapC]; exact_mod_cast hC
    have hg : st.capacity ≤ (st.order.length : Int) := by
      rw [hcapC, hfull]
    obtain ⟨st', hset⟩ := Set_isSome st b k v o now hcap1
    obtain ⟨hc, hor⟩ := Set_some_spec hset
    obtain ⟨st2, hev, hlen2, hord⟩ := Set_new_full_spec hset hnew hg
    refine ⟨st', hset, ?_, st2, hev, by omega, hord⟩
    rcases hor with heq | ⟨hlt, _⟩
    · omega
    · exact absurd hg hlt

/-- Witness for C1 at `C = 1` with the empty operation sequence. -/
theorem c1_capacity_invariant_witness :
    1 ≤ 1 ∧ runOps (NewMinervaCache 1) [] = some (NewMinervaCache 1) ∧
      (NewMinervaCache 1).order.length ≤ 1 :=
  ⟨by decide, rfl,
    (c1_capacity_invariant 1 (by decide) [] (NewMinervaCache 1) rfl).1⟩

/-- When `Set` finds the key in the map returned by `getBucket`, the bucket
already existed (a freshly created bucket is empty), so `getBucket` changed
nothing. -/
theorem getBucket_of_key_found {st : MinervaCache} {b k : String} {id : Nat}
    (h : lookupA k (st.getBucket b).2 = some id) :
    lookupA b st.buckets = some (st.getBucket b).2 ∧ (st.getBucket b).1 = st := by
  unfold MinervaCache.getBucket at h ⊢
  cases hbk : lookupA b st.buckets with
  | some mcb => exact ⟨rfl, rfl⟩
  | none => rw [hbk] at h; cases h

/-- After a `Set` that leaves the store strictly below capacity, the stored
entry is reachable: its bucket maps the key to an element whose `Value` is
exactly the written item.  (Strictly below capacity rules out the eviction
path, whose bucket write can be lost when the eviction deletes the target
bucket.) -/
theorem Set_then_lookup {st st' : MinervaCache} {b k : String} {v : List Nat}
    {o : Options} {now : Nat}
    (hset : st.Set b k v o now = some st')
    (hlt : (st'.order.length : Int) < st'.capacity) :
    ∃ id mcb', lookupA b st'.buckets = some mcb' ∧ lookupA k mcb' = some id ∧
      lookupA id st'.items =
        some { bucket := b, key := k, value := v,
               expiresAt := if 0 < o.TTL then now + o.TTL.toNat else 0 } := by
  unfold MinervaCache.Set at hset
  dsimp only at hset
  split at hset
  · -- existing key
    rename_i id heq
    obtain ⟨hbk, hst1⟩ := getBucket_of_key_found heq
    rw [Option.some_inj] at hset
    subst hset
    have hbuckets :
        (if o.EvictionPolicy = EvictionPolicy.LRUEvictionPolicy ∨
            o.EvictionPolicy = EvictionPolicy.MRUEvictionPolicy
         then ({ (st.getBucket b).1 with
                  items := setA id
                    { bucket := b, key := k, value := v,
                      expiresAt := if 0 < o.TTL then now + o.TTL.toNat else 0 }
                    (st.getBucket b).1.items } : MinervaCache).moveToBack id
         else { (st.getBucket b).1 with
                  items := setA id
                    { bucket := b, key := k, value := v,
                      expiresAt := if 0 < o.TTL then now + o.TTL.toNat else 0 }
                    (st.getBucket b).1.items }).buckets =
          (st.getBucket b).1.buckets := by
      split <;> simp
    have hitems :
        (if o.EvictionPolicy = EvictionPolicy.LRUEvictionPolicy ∨
            o.EvictionPolicy = EvictionPolicy.MRUEvictionPolicy
         then ({ (st.getBucket b).1 with
                  items := setA id
                    { bucket := b, key := k, value := v,
                      expiresAt := if 0 < o.TTL then now + o.TTL.toNat else 0 }
                    (st.getBucket b).1.items } : MinervaCache).moveToBack id
         else { (st.getBucket b).1 with
                  items := setA id
                    { bucket := b, key := k, value := v,
                      expiresAt := if 0 < o.TTL then now + o.TTL.toNat else 0 }
                    (st.getBucket b).1.items }).items =
          setA id
            { bucket := b, key := k, value := v,
              expiresAt := if 0 < o.TTL then now + o.TTL.toNat else 0 }
            (st.getBucket b).1.items := by
      split <;> simp
    refine ⟨id, (st.getBucket b).2, ?_, heq, ?_⟩
    · rw [hbuckets, hst1]
      exact hbk
    · rw [hitems]
      exact lookupA_setA_self id _ _
  · -- new key
    split at hset
    · cases hset
    · rename_i st2 hif
      split at hif
      · -- eviction ran: contradicts strictly-below-capacity afterwards
        exfalso
        rename_i hg
        simp only [getBucket_capacity, getBucket_order] at hg
        obtain ⟨hlen2, hcap2, _, _⟩ := evict_some_spec hif
        simp only [getBucket_capacity, getBucket_order] at hlen2 hcap2
        split at hset <;>
        · rw [Option.some_inj] at hset
          subst hset
          simp only [List.length_append, List.length_cons, List.length_nil] at hlt
          rw [hcap2] at hlt
          omega
      · -- no eviction: the insertion is fully visible
        rename_i hgneg
        rw [Option.some_inj] at hif
        subst hif
        split at hset
        · rename_i mcbNow heq2
          rw [getBucket_lookup] at heq2
          rw [Option.some_inj] at heq2
          subst heq2
          rw [Option.some_inj] at hset
          subst hset
          refine ⟨st.getBucket b |>.1.nextId, _, lookupA_setA_self b _ _,
            lookupA_setA_self k _ _, ?_⟩
          simp [lookupA]
        · rename_i heq2
          rw [getBucket_lookup] at heq2
          cases heq2

/-- C2 counterexample.  With capacity 1, `Set("b","k",[7])` then
`Get("b","k")` (same options, zero TTL) does not return the value: the `Get`
first runs the defensive at-capacity eviction, which evicts the just-inserted
entry itself (and deletes its bucket), so the `Get` fails with
`ErrBucketNotFound`. -/
theorem c2_round_trip_counterexample :
    (((NewMinervaCache 1).Set "b" "k" [7]
          ⟨0, EvictionPolicy.LRUEvictionPolicy⟩ 0).bind
        (fun st =>
          (st.Get "b" "k" ⟨0, EvictionPolicy.LRUEvictionPolicy⟩ 0).map
            Prod.snd)) =
      some (Except.error CacheError.bucketNotFound) := rfl

/-- C2 (amended).  Round trip: `Set(bucket, key, value, opts)` with zero TTL
followed by `Get(bucket, key, opts)` returns exactly the value that was set,
for any starting state — provided the store is strictly below capacity after
the `Set`, so that the `Get`'s defensive at-capacity eviction does not run. -/
theorem c2_round_trip {st st' : MinervaCache} {b k : String} {v : List Nat}
    {o : Options} {now : Nat}
    (hset : st.Set b k v o now = some st')
    (httl : o.TTL = 0)
    (hlt : (st'.order.length : Int) < st'.capacity) (now2 : Nat) :
    ∃ st'', st'.Get b k o now2 = some (st'', Except.ok v) := by
  obtain ⟨id, mcb', hb', hk', hit'⟩ := Set_then_lookup hset hlt
  rw [httl] at hit'
  simp only [lt_self_iff_false, if_false] at hit'
  have hgneg : ¬ st'.capacity ≤ (st'.order.length : Int) := by omega
  unfold MinervaCache.Get
  dsimp only
  rw [if_neg hgneg]
  dsimp only
  rw [hb']
  dsimp only
  rw [hk']
  dsimp only
  rw [hit']
  dsimp only
  rw [if_neg (by simp)]
  exact ⟨_, rfl⟩

/-- Witness for C2 (amended): capacity 2, one fresh `Set`, `Get` at a later
instant returns the value. -/
theorem c2_round_trip_witness :
    ((NewMinervaCache 2).Set "b" "k" [7]
        ⟨0, EvictionPolicy.LRUEvictionPolicy⟩ 0 =
      some { capacity := 2, nextId := 1, items := [(0, ⟨"b", "k", [7], 0⟩)],
             buckets := [("b", [("k", 0)])], order := [0] }) ∧
    (∃ st'', ({ capacity := 2, nextId := 1,
                items := [(0, ⟨"b", "k", [7], 0⟩)],
                buckets := [("b", [("k", 0)])],
                order := [0] } : MinervaCache).Get "b" "k"
        ⟨0, EvictionPolicy.LRUEvictionPolicy⟩ 5 =
        some (st'', Except.ok [7])) :=
  ⟨rfl,
    @c2_round_trip (NewMinervaCache 2)
      ⟨2, 1, [(0, ⟨"b", "k", [7], 0⟩)], [("b", [("k", 0)])], [0]⟩
      "b" "k" [7] ⟨0, EvictionPolicy.LRUEvictionPolicy⟩ 0 rfl rfl (by decide) 5⟩

/-- C3 counterexample.  A key set at instant 10 with TTL `d = 5` is still
returned by a `Get` at instant 15, i.e. at `t = d` exactly: the code expires an
entry only when the current instant is strictly after `expiresAt = 10 + 5`, so
the claim's "fails with KeyExpired at any `t ≥ d`" is wrong at the boundary
`t = d`. -/
theorem c3_ttl_law_counterexample :
    (((NewMinervaCache 2).Set "b" "k" [7]
          ⟨5, EvictionPolicy.NoEvictionPolicy⟩ 10).bind
        (fun st =>
          (st.Get "b" "k" ⟨5, EvictionPolicy.NoEvictionPolicy⟩ 15).map
            Prod.snd)) =
      some (Except.ok [7]) := rfl

/-- C3 (amended).  TTL law: for a key stored by `Set` with TTL `d > 0`
(at instant `now`), while the store stays strictly below capacity and the entry
has not been removed by the active sweep, a `Get` at any `t ≤ d` after the
`Set` returns the value and a `Get` at any `t > d` fails with KeyExpired: an
entry is treated as expired if and only if its expiry timestamp is non-zero and
strictly before the current time at the moment of the check. -/
theorem c3_ttl_law {st st' : MinervaCache} {b k : String} {v : List Nat}
    {pol : EvictionPolicy} {now d : Nat}
    (hd : 0 < d)
    (hset : st.Set b k v ⟨(d : Int), pol⟩ now = some st')
    (hlt : (st'.order.length : Int) < st'.capacity)
    (o2 : Options) (t : Nat) :
    (t ≤ d → ∃ st'', st'.Get b k o2 (now + t) = some (st'', Except.ok v)) ∧
    (d < t → ∃ st'', st'.Get b k o2 (now + t) =
        some (st'', Except.error CacheError.keyExpired)) := by
  obtain ⟨id, mcb', hb', hk', hit'⟩ := Set_then_lookup hset hlt
  dsimp only at hit'
  rw [if_pos (by exact_mod_cast hd), Int.toNat_natCast] at hit'
  have hgneg : ¬ st'.capacity ≤ (st'.order.length : Int) := by omega
  constructor
  · intro ht
    unfold MinervaCache.Get
    dsimp only
    rw [if_neg hgneg]
    dsimp only
    rw [hb']
    dsimp only
    rw [hk']
    dsimp only
    rw [hit']
    dsimp only
    rw [if_neg (by rintro ⟨h1, h2⟩; omega)]
    exact ⟨_, rfl⟩
  · intro ht
    unfold MinervaCache.Get
    dsimp only
    rw [if_neg hgneg]
    dsimp only
    rw [hb']
    dsimp only
    rw [hk']
    dsimp only
    rw [hit']
    dsimp only
    rw [if_pos ⟨by omega, by omega⟩]
    exact ⟨_, rfl⟩

/-- Witness for C3 (amended): capacity 2, `Set` with TTL 5 at instant 10,
`Get` at instant 16 (`t = 6 > d`) fails with KeyExpired. -/
theorem c3_ttl_law_witness :
    0 < 5 ∧
    ((NewMinervaCache 2).Set "b" "k" [7]
        ⟨(5 : Int), EvictionPolicy.NoEvictionPolicy⟩ 10 =
      some { capacity := 2, nextId := 1, items := [(0, ⟨"b", "k", [7], 15⟩)],
             buckets := [("b", [("k", 0)])], order := [0] }) ∧
    (∃ st'', ({ capacity := 2, nextId := 1,
                items := [(0, ⟨"b", "k", [7], 15⟩)],
                buckets := [("b", [("k", 0)])],
                order := [0] } : MinervaCache).Get "b" "k"
        ⟨0, EvictionPolicy.NoEvictionPolicy⟩ (10 + 6) =
        some (st'', Except.error CacheError.keyExpired)) :=
  ⟨by decide, rfl,
    (@c3_ttl_law (NewMinervaCache 2)
      ⟨2, 1, [(0, ⟨"b", "k", [7], 15⟩)], [("b", [("k", 0)])], [0]⟩
      "b" "k" [7] EvictionPolicy.NoEvictionPolicy 10 5
      (by decide) rfl (by decide)
      ⟨0, EvictionPolicy.NoEvictionPolicy⟩ 6).2 (by decide)⟩

/-- Evaluation of `Get` after its capacity pre-step: once the defensive eviction step has
produced `st1`, the rest of `Get` is lookup on `st1`. -/
theorem Get_pre {st st1 : MinervaCache} {b k : String} {o : Options} {now : Nat}
    (hpre : (if st.capacity ≤ (st.order.length : Int)
             then st.evict EvictionPolicy.OldestEvictionPolicy
             else some st) = some st1) :
    st.Get b k o now =
      (match lookupA b st1.buckets with
       | none => some (st1, Except.error CacheError.bucketNotFound)
       | some mcb =>
         match lookupA k mcb with
         | none => some (st1, Except.error CacheError.keyNotFound)
         | some id =>
           match lookupA id st1.items with
           | none => none
           | some item =>
             if item.expiresAt ≠ 0 ∧ item.expiresAt < now then
               some (st1.deleteAndRemoveFromInsertOrder id,
                     Except.error CacheError.keyExpired)
             else
               some ((if o.EvictionPolicy = EvictionPolicy.LRUEvictionPolicy ∨
                         o.EvictionPolicy = EvictionPolicy.MRUEvictionPolicy
                      then st1.moveToBack id else st1),
                     Except.ok item.value)) := by
  unfold MinervaCache.Get
  dsimp only
  rw [hpre]

/-- C4. Get semantics: for every `Get(bucket, key, opts)` on a cache with
positive capacity, if the store holds at least capacity-many entries then one
entry is first evicted under the Oldest policy regardless of `opts` (otherwise
the state is untouched); then, on the post-eviction state, `Get` fails with
BucketNotFound if the bucket is absent, fails with KeyNotFound if the bucket
exists but the key is absent, fails with KeyExpired — removing the entry — if
the entry's non-zero expiry timestamp has passed, and otherwise returns the
stored value, moving the entry's order node to the most-recently-touched end
exactly when the requested policy is LRU or MRU. -/
theorem c4_get_semantics (st : MinervaCache) (b k : String) (o : Options)
    (now : Nat) (hcap : 1 ≤ st.capacity) :
    ∃ st1 : MinervaCache,
      (st.capacity ≤ (st.order.length : Int) →
        st.evict EvictionPolicy.OldestEvictionPolicy = some st1 ∧
        st1.order.length + 1 = st.order.length) ∧
      (¬ st.capacity ≤ (st.order.length : Int) → st1 = st) ∧
      (lookupA b st1.buckets = none →
        st.Get b k o now = some (st1, Except.error CacheError.bucketNotFound)) ∧
      (∀ mcb, lookupA b st1.buckets = some mcb → lookupA k mcb = none →
        st.Get b k o now = some (st1, Except.error CacheError.keyNotFound)) ∧
      (∀ mcb id item, lookupA b st1.buckets = some mcb →
        lookupA k mcb = some id → lookupA id st1.items = some item →
        ((item.expiresAt ≠ 0 ∧ item.expiresAt < now →
            st.Get b k o now =
              some (st1.deleteAndRemoveFromInsertOrder id,
                    Except.error CacheError.keyExpired)) ∧
         (¬ (item.expiresAt ≠ 0 ∧ item.expiresAt < now) →
            ((o.EvictionPolicy = EvictionPolicy.LRUEvictionPolicy ∨
                o.EvictionPolicy = EvictionPolicy.MRUEvictionPolicy) →
              st.Get b k o now = some (st1.moveToBack id, Except.ok item.value)) ∧
            (¬ (o.EvictionPolicy = EvictionPolicy.LRUEvictionPolicy ∨
                o.EvictionPolicy = EvictionPolicy.MRUEvictionPolicy) →
              st.Get b k o now = some (st1, Except.ok item.value))))) := by
  by_cases hg : st.capacity ≤ (st.order.length : Int)
  · have hne : st.order ≠ [] := by
      have hpos : 0 < st.order.length := by omega
      exact List.length_pos.mp hpos
    obtain ⟨st1, hev, hlen, _, _, _⟩ :=
      evict_of_ne_nil st EvictionPolicy.OldestEvictionPolicy hne
    have hpre : (if st.capacity ≤ (st.order.length : Int)
                 then st.evict EvictionPolicy.OldestEvictionPolicy
                 else some st) = some st1 := by
      rw [if_pos hg]; exact hev
    refine ⟨st1, fun _ => ⟨hev, hlen⟩, fun hn => absurd hg hn, ?_, ?_, ?_⟩
    · intro hb
      rw [Get_pre hpre, hb]
    · intro mcb hb hkk
      rw [Get_pre hpre, hb]
      dsimp only
      rw [hkk]
    · intro mcb id item hb hkk hit
      refine ⟨?_, fun hnex => ⟨?_, ?_⟩⟩
      · intro hex
        rw [Get_pre hpre, hb]
        dsimp only
        rw [hkk]
        dsimp only
        rw [hit]
        dsimp only
        rw [if_pos hex]
      · intro hpol
        rw [Get_pre hpre, hb]
        dsimp only
        rw [hkk]
        dsimp only
        rw [hit]
        dsimp only
        rw [if_neg hnex, if_pos hpol]
      · intro hpol
        rw [Get_pre hpre, hb]
        dsimp only
        rw [hkk]
        dsimp only
        rw [hit]
        dsimp only
        rw [if_neg hnex, if_neg hpol]
  · have hpre : (if st.capacity ≤ (st.order.length : Int)
                 then st.evict EvictionPolicy.OldestEvictionPolicy
                 else some st) = some st := by
      rw [if_neg hg]
    refine ⟨st, fun hgg => absurd hgg hg, fun _ => rfl, ?_, ?_, ?_⟩
    · intro hb
      rw [Get_pre hpre, hb]
    · intro mcb hb hkk
      rw [Get_pre hpre, hb]
      dsimp only
      rw [hkk]
    · intro mcb id item hb hkk hit
      refine ⟨?_, fun hnex => ⟨?_, ?_⟩⟩
      · intro hex
        rw [Get_pre hpre, hb]
        dsimp only
        rw [hkk]
        dsimp only
        rw [hit]
        dsimp only
        rw [if_pos hex]
      · intro hpol
        rw [Get_pre hpre, hb]
        dsimp only
        rw [hkk]
        dsimp only
        rw [hit]
        dsimp only
        rw [if_neg hnex, if_pos hpol]
      · intro hpol
        rw [Get_pre hpre, hb]
        dsimp only
        rw [hkk]
        dsimp only
        rw [hit]
        dsimp only
        rw [if_neg hnex, if_neg hpol]

/-- Witness for C4 on a concrete one-entry cache below capacity. -/
theorem c4_get_semantics_witness :
    1 ≤ ({ capacity := 2, nextId := 1, items := [(0, ⟨"b", "k", [7], 0⟩)],
           buckets := [("b", [("k", 0)])],
           order := [0] } : MinervaCache).capacity ∧
    ∃ st1, st1 = ({ capacity := 2, nextId := 1,
                    items := [(0, ⟨"b", "k", [7], 0⟩)],
                    buckets := [("b", [("k", 0)])],
                    order := [0] } : MinervaCache) ∧
      ({ capacity := 2, nextId := 1, items := [(0, ⟨"b", "k", [7], 0⟩)],
         buckets := [("b", [("k", 0)])],
         order := [0] } : MinervaCache).Get "c" "x"
          ⟨0, EvictionPolicy.NoEvictionPolicy⟩ 0 =
        some (st1, Except.error CacheError.bucketNotFound) := by
  refine ⟨by decide, ?_⟩
  obtain ⟨st1, hfull, hbelow, hbnf, _, _⟩ :=
    c4_get_semantics
      ({ capacity := 2, nextId := 1, items := [(0, ⟨"b", "k", [7], 0⟩)],
         buckets := [("b", [("k", 0)])], order := [0] } : MinervaCache)
      "c" "x" ⟨0, EvictionPolicy.NoEvictionPolicy⟩ 0 (by decide)
  have h1 : st1 = _ := hbelow (by decide)
  exact ⟨st1, h1, hbnf (by rw [h1]; rfl)⟩

/-- C5. Eviction selector: when eviction runs on a non-empty order index, the
victim is the tail node for MRU/Newest and the head node for every other
policy (Oldest, LRU, None/unspecified); exactly one entry is removed together
with its order node, the victim's key is deleted from its bucket, and the
bucket itself is removed exactly when it became empty. -/
theorem c5_eviction_selector (st : MinervaCache) (policy : EvictionPolicy)
    (hne : st.order ≠ []) :
    ∃ id : Nat,
      ((policy = EvictionPolicy.MRUEvictionPolicy ∨
          policy = EvictionPolicy.NewestEvictionPolicy) →
        st.order.getLast? = some id) ∧
      (¬ (policy = EvictionPolicy.MRUEvictionPolicy ∨
          policy = EvictionPolicy.NewestEvictionPolicy) →
        st.order.head? = some id) ∧
      st.evict policy = some (st.deleteAndRemoveFromInsertOrder id) ∧
      (st.deleteAndRemoveFromInsertOrder id).order = st.order.erase id ∧
      (st.deleteAndRemoveFromInsertOrder id).order.length + 1 =
        st.order.length ∧
      (∀ item mcb, lookupA id st.items = some item →
        lookupA item.bucket st.buckets = some mcb →
        ((removeA item.key mcb = [] →
            (st.deleteAndRemoveFromInsertOrder id).buckets =
              removeA item.bucket st.buckets) ∧
         (removeA item.key mcb ≠ [] →
            (st.deleteAndRemoveFromInsertOrder id).buckets =
              setA item.bucket (removeA item.key mcb) st.buckets))) := by
  by_cases hpol : policy = EvictionPolicy.MRUEvictionPolicy ∨
      policy = EvictionPolicy.NewestEvictionPolicy
  · have hlast := List.getLast?_eq_getLast_of_ne_nil hne
    have hmem : st.order.getLast hne ∈ st.order := List.getLast_mem hne
    have hevict : st.evict policy =
        some (st.deleteAndRemoveFromInsertOrder (st.order.getLast hne)) := by
      unfold MinervaCache.evict
      rcases hpol with h | h <;> subst h <;> dsimp only <;> rw [hlast]
    refine ⟨st.order.getLast hne, fun _ => hlast, fun hn => absurd hpol hn,
      hevict, DAR_order st _, ?_, ?_⟩
    · rw [DAR_order st _]
      exact List.length_erase_add_one hmem
    · intro item mcb hitem hmcb
      have hDAR : st.deleteAndRemoveFromInsertOrder (st.order.getLast hne) =
          (if removeA item.key mcb = [] then
            { st with order := st.order.erase (st.order.getLast hne),
                      buckets := removeA item.bucket st.buckets }
           else
            { st with order := st.order.erase (st.order.getLast hne),
                      buckets := setA item.bucket (removeA item.key mcb)
                        st.buckets }) := by
        unfold MinervaCache.deleteAndRemoveFromInsertOrder
        dsimp only
        rw [hitem]
        dsimp only
        rw [hmcb]
      constructor
      · intro hemp
        rw [hDAR, if_pos hemp]
      · intro hnemp
        rw [hDAR, if_neg hnemp]
  · obtain ⟨x, xs, hxs⟩ := List.exists_cons_of_ne_nil hne
    have hhead : st.order.head? = some x := by rw [hxs]; rfl
    have hmem : x ∈ st.order := by rw [hxs]; exact List.mem_cons_self x xs
    have hevict : st.evict policy =
        some (st.deleteAndRemoveFromInsertOrder x) := by
      unfold MinervaCache.evict
      cases policy with
      | MRUEvictionPolicy => exact absurd (Or.inl rfl) hpol
      | NewestEvictionPolicy => exact absurd (Or.inr rfl) hpol
      | NoEvictionPolicy => dsimp only; rw [hhead]
      | OldestEvictionPolicy => dsimp only; rw [hhead]
      | LRUEvictionPolicy => dsimp only; rw [hhead]
    refine ⟨x, fun hp => absurd hp hpol, fun _ => hhead, hevict,
      DAR_order st _, ?_, ?_⟩
    · rw [DAR_order st _]
      exact List.length_erase_add_one hmem
    · intro item mcb hitem hmcb
      have hDAR : st.deleteAndRemoveFromInsertOrder x =
          (if removeA item.key mcb = [] then
            { st with order := st.order.erase x,
                      buckets := removeA item.bucket st.buckets }
           else
            { st with order := st.order.erase x,
                      buckets := setA item.bucket (removeA item.key mcb)
                        st.buckets }) := by
        unfold MinervaCache.deleteAndRemoveFromInsertOrder
        dsimp only
        rw [hitem]
        dsimp only
        rw [hmcb]
      constructor
      · intro hemp
        rw [hDAR, if_pos hemp]
      · intro hnemp
        rw [hDAR, if_neg hnemp]

/-- Witness for C5: on a concrete two-entry cache, LRU eviction removes the
head entry. -/
theorem c5_eviction_selector_witness :
    (([0, 1] : List Nat) ≠ []) ∧
    ({ capacity := 2, nextId := 2,
       items := [(1, ⟨"b", "k2", [2], 0⟩), (0, ⟨"b", "k1", [1], 0⟩)],
       buckets := [("b", [("k1", 0), ("k2", 1)])],
       order := [0, 1] } : MinervaCache).evict
        EvictionPolicy.LRUEvictionPolicy ≠ none := by
  refine ⟨by decide, ?_⟩
  obtain ⟨id, _, _, hev, _, _, _⟩ :=
    c5_eviction_selector
      ({ capacity := 2, nextId := 2,
         items := [(1, ⟨"b", "k2", [2], 0⟩), (0, ⟨"b", "k1", [1], 0⟩)],
         buckets := [("b", [("k1", 0), ("k2", 1)])],
         order := [0, 1] } : MinervaCache)
      EvictionPolicy.LRUEvictionPolicy (by decide)
  rw [hev]
  simp

/-- C6 (code defect).  With capacity 1, `Set("b","k1")` then `Set("b","k2")`:
the second `Set` evicts `k1`, which empties bucket `"b"` and deletes it from
the bucket map; the Go write `mcb["k2"] = el` then lands in the map object
that was fetched before the eviction and is no longer reachable from
`mc.buckets`.  Afterwards the order index holds one node (`k2`'s) while the
bucket map is empty — the 1:1 correspondence between live entries and order
nodes is broken by an ordinary pair of Sets. -/
theorem c6_correspondence_bug :
    (runOps (NewMinervaCache 1)
        [ CacheOp.set "b" "k1" [1] ⟨0, EvictionPolicy.NoEvictionPolicy⟩ 0,
          CacheOp.set "b" "k2" [2] ⟨0, EvictionPolicy.NoEvictionPolicy⟩ 0 ]).map
      (fun st => (st.order, st.buckets)) =
    some ([1], []) := rfl

/-- C7 counterexample.  Capacity 3, LRU policy throughout: after inserting A,
B, C, the `Get` that "touches" A runs the defensive at-capacity eviction first
and evicts A itself (the head), then fails with KeyNotFound; the later insert
of D evicts nothing.  So A is gone and B survives — the opposite of the
claim. -/
theorem c7_eviction_tie_break_counterexample :
    (runOps (NewMinervaCache 3)
        [ CacheOp.set "bkt" "A" [1] ⟨0, EvictionPolicy.LRUEvictionPolicy⟩ 0,
          CacheOp.set "bkt" "B" [2] ⟨0, EvictionPolicy.LRUEvictionPolicy⟩ 0,
          CacheOp.set "bkt" "C" [3] ⟨0, EvictionPolicy.LRUEvictionPolicy⟩ 0,
          CacheOp.get "bkt" "A" ⟨0, EvictionPolicy.LRUEvictionPolicy⟩ 0,
          CacheOp.set "bkt" "D" [4] ⟨0, EvictionPolicy.LRUEvictionPolicy⟩ 0 ]).map
      (fun st =>
        (((lookupA "bkt" st.buckets).bind (fun mcb => lookupA "A" mcb)).isSome,
         ((lookupA "bkt" st.buckets).bind (fun mcb => lookupA "B" mcb)).isSome)) =
    some (false, true) := rfl

/-- C7 (amended).  Capacity 3, LRU policy throughout, with A touched while the
cache is still below capacity: after `Set A`, `Set B`, `Get A` (which moves A
to the most-recently-used end), `Set C`, the insert of D evicts B — not A —
since A was more recently touched than B. -/
theorem c7_eviction_tie_break :
    (runOps (NewMinervaCache 3)
        [ CacheOp.set "bkt" "A" [1] ⟨0, EvictionPolicy.LRUEvictionPolicy⟩ 0,
          CacheOp.set "bkt" "B" [2] ⟨0, EvictionPolicy.LRUEvictionPolicy⟩ 0,
          CacheOp.get "bkt" "A" ⟨0, EvictionPolicy.LRUEvictionPolicy⟩ 0,
          CacheOp.set "bkt" "C" [3] ⟨0, EvictionPolicy.LRUEvictionPolicy⟩ 0,
          CacheOp.set "bkt" "D" [4] ⟨0, EvictionPolicy.LRUEvictionPolicy⟩ 0 ]).map
      (fun st =>
        (((lookupA "bkt" st.buckets).bind (fun mcb => lookupA "A" mcb)).isSome,
         ((lookupA "bkt" st.buckets).bind (fun mcb => lookupA "B" mcb)).isSome,
         ((lookupA "bkt" st.buckets).bind (fun mcb => lookupA "C" mcb)).isSome,
         ((lookupA "bkt" st.buckets).bind (fun mcb => lookupA "D" mcb)).isSome)) =
    some (true, false, true, true) := rfl

/-- C8 counterexample.  A `Get` for a missing bucket on a capacity-1 cache
holding one live entry fails with BucketNotFound but also removes that live
entry (the defensive at-capacity eviction): its order index goes from one node
to empty, so the failure is not side-effect-free. -/
theorem c8_failure_atomicity_counterexample :
    (((NewMinervaCache 1).Set "b" "k" [7]
          ⟨0, EvictionPolicy.LRUEvictionPolicy⟩ 0).bind
        (fun st0 =>
          (st0.Get "c" "x" ⟨0, EvictionPolicy.LRUEvictionPolicy⟩ 0).map
            (fun p => (p.2, p.1.order, st0.order)))) =
      some (Except.error CacheError.bucketNotFound, [], [0]) := rfl

/-- C8 (amended).  Failure atomicity below capacity: when the store is
strictly below capacity (so the `Get` pre-step eviction is skipped), a `Get`
failing with BucketNotFound or KeyNotFound returns the state unchanged, a
`Get` failing with KeyExpired changes the state only by removing that expired
entry (its order node is erased, the arena is untouched), and a failing
`Delete` never changes the state. -/
theorem c8_failure_atomicity {st : MinervaCache} {b k : String} {o : Options}
    {now : Nat} (hlt : (st.order.length : Int) < st.capacity) :
    (lookupA b st.buckets = none →
      st.Get b k o now = some (st, Except.error CacheError.bucketNotFound)) ∧
    (∀ mcb, lookupA b st.buckets = some mcb → lookupA k mcb = none →
      st.Get b k o now = some (st, Except.error CacheError.keyNotFound)) ∧
    (∀ mcb id item, lookupA b st.buckets = some mcb →
      lookupA k mcb = some id → lookupA id st.items = some item →
      item.expiresAt ≠ 0 → item.expiresAt < now →
      st.Get b k o now = some (st.deleteAndRemoveFromInsertOrder id,
          Except.error CacheError.keyExpired) ∧
        (st.deleteAndRemoveFromInsertOrder id).order = st.order.erase id ∧
        (st.deleteAndRemoveFromInsertOrder id).items = st.items) ∧
    (lookupA b st.buckets = none →
      st.Delete b k = (st, some CacheError.bucketNotFound)) ∧
    (∀ mcb, lookupA b st.buckets = some mcb → lookupA k mcb = none →
      st.Delete b k = (st, some CacheError.keyNotFound)) := by
  have hpre : (if st.capacity ≤ (st.order.length : Int)
               then st.evict EvictionPolicy.OldestEvictionPolicy
               else some st) = some st := by
    rw [if_neg (by omega)]
  refine ⟨?_, ?_, ?_, ?_, ?_⟩
  · intro hb
    rw [Get_pre hpre, hb]
  · intro mcb hb hkk
    rw [Get_pre hpre, hb]
    dsimp only
    rw [hkk]
  · intro mcb id item hb hkk hit hne hpast
    refine ⟨?_, DAR_order st id, DAR_items st id⟩
    rw [Get_pre hpre, hb]
    dsimp only
    rw [hkk]
    dsimp only
    rw [hit]
    dsimp only
    rw [if_pos ⟨hne, hpast⟩]
  · intro hb
    unfold MinervaCache.Delete
    rw [hb]
  · intro mcb hb hkk
    unfold MinervaCache.Delete
    rw [hb]
    dsimp only
    rw [hkk]

/-- Witness for C8 (amended) on a concrete one-entry cache below capacity. -/
theorem c8_failure_atomicity_witness :
    ((({ capacity := 2, nextId := 1, items := [(0, ⟨"b", "k", [7], 0⟩)],
         buckets := [("b", [("k", 0)])],
         order := [0] } : MinervaCache).order.length : Int) <
      ({ capacity := 2, nextId := 1, items := [(0, ⟨"b", "k", [7], 0⟩)],
         buckets := [("b", [("k", 0)])],
         order := [0] } : MinervaCache).capacity) ∧
    ({ capacity := 2, nextId := 1, items := [(0, ⟨"b", "k", [7], 0⟩)],
       buckets := [("b", [("k", 0)])],
       order := [0] } : MinervaCache).Get "c" "x"
        ⟨0, EvictionPolicy.NoEvictionPolicy⟩ 0 =
      some (({ capacity := 2, nextId := 1, items := [(0, ⟨"b", "k", [7], 0⟩)],
               buckets := [("b", [("k", 0)])],
               order := [0] } : MinervaCache),
            Except.error CacheError.bucketNotFound) :=
  ⟨by decide, (c8_failure_atomicity (by decide)).1 rfl⟩

/-- C9. `Set` never fails: with a positive capacity it returns the nil error
for every bucket, key, value and options, regardless of occupancy (the
eviction guard itself guarantees a victim exists); and no engine operation
ever returns `ErrCacheFull` — `Get`'s failures are only
BucketNotFound/KeyNotFound/KeyExpired and `Delete`'s are only
BucketNotFound/KeyNotFound. -/
theorem c9_set_never_fails :
    (∀ (st : MinervaCache) (b k : String) (v : List Nat) (o : Options)
        (now : Nat), 1 ≤ st.capacity → ∃ st', st.Set b k v o now = some st') ∧
    (∀ (st st' : MinervaCache) (b k : String) (o : Options) (now : Nat),
        st.Get b k o now ≠ some (st', Except.error CacheError.cacheFull)) ∧
    (∀ (st : MinervaCache) (b k : String),
        (st.Delete b k).2 ≠ some CacheError.cacheFull) := by
  refine ⟨fun st b k v o now hcap => Set_isSome st b k v o now hcap, ?_, ?_⟩
  · intro st st' b k o now hcontra
    unfold MinervaCache.Get at hcontra
    dsimp only at hcontra
    split at hcontra
    · cases hcontra
    · split at hcontra
      · simp at hcontra
      · split at hcontra
        · simp at hcontra
        · split at hcontra
          · cases hcontra
          · split at hcontra
            · simp at hcontra
            · simp at hcontra
  · intro st b k
    unfold MinervaCache.Delete
    split
    · simp
    · split <;> simp

/-- C10. Eviction safety: on any cache with positive capacity, whenever the
eviction guard `capacity ≤ order.Len()` fires (the condition under which both
`Set` and `Get` invoke `evict`), the order index is non-empty and eviction
returns a well-defined state for every policy; with capacity ≤ 0, the first
`Set` of a new key on a fresh cache invokes eviction on the empty order index
and the removal dereferences the non-existent (nil) element — the crash
modelled as `none`. -/
theorem c10_eviction_well_defined :
    (∀ (st : MinervaCache) (policy : EvictionPolicy),
        1 ≤ st.capacity → st.capacity ≤ (st.order.length : Int) →
        st.order ≠ [] ∧ ∃ st', st.evict policy = some st') ∧
    (∀ cap : Int, cap ≤ 0 →
      ∀ (b k : String) (v : List Nat) (o : Options) (now : Nat),
        (NewMinervaCache cap).order = [] ∧
        (NewMinervaCache cap).Set b k v o now = none) := by
  constructor
  · intro st policy hcap hg
    have hpos : 0 < st.order.length := by omega
    have hne := List.length_pos.mp hpos
    obtain ⟨st', hev, _, _, _, _⟩ := evict_of_ne_nil st policy hne
    exact ⟨hne, st', hev⟩
  · intro cap hcap b k v o now
    refine ⟨rfl, ?_⟩
    have hev : ((NewMinervaCache cap).getBucket b).1.evict o.EvictionPolicy =
        none := by
      unfold MinervaCache.evict
      cases hpol : o.EvictionPolicy <;> rfl
    have hnone : lookupA k ((NewMinervaCache cap).getBucket b).2 = none := rfl
    unfold MinervaCache.Set
    dsimp only
    rw [hnone]
    dsimp only
    split
    · rfl
    · rename_i st2 heq
      exfalso
      split at heq
      · rw [hev] at heq
        cases heq
      · rename_i hc
        simp only [getBucket_capacity, getBucket_order] at hc
        simp only [NewMinervaCache, List.length_nil, Nat.cast_zero] at hc
        omega

/-- Witness for C10: eviction is defined on a concrete full capacity-1 cache,
and a fresh capacity-0 cache crashes on its first Set. -/
theorem c10_eviction_well_defined_witness :
    (({ capacity := 1, nextId := 1, items := [(0, ⟨"b", "k", [7], 0⟩)],
        buckets := [("b", [("k", 0)])],
        order := [0] } : MinervaCache).order ≠ [] ∧
      ∃ st', ({ capacity := 1, nextId := 1,
                items := [(0, ⟨"b", "k", [7], 0⟩)],
                buckets := [("b", [("k", 0)])],
                order := [0] } : MinervaCache).evict
          EvictionPolicy.LRUEvictionPolicy = some st') ∧
    (NewMinervaCache 0).Set "b" "k" [7]
        ⟨0, EvictionPolicy.LRUEvictionPolicy⟩ 0 = none :=
  ⟨c10_eviction_well_defined.1
      ({ capacity := 1, nextId := 1, items := [(0, ⟨"b", "k", [7], 0⟩)],
         buckets := [("b", [("k", 0)])],
         order := [0] } : MinervaCache)
      EvictionPolicy.LRUEvictionPolicy (by decide) (by decide),
   (c10_eviction_well_defined.2 0 (by decide) "b" "k" [7]
      ⟨0, EvictionPolicy.LRUEvictionPolicy⟩ 0).2⟩

/-- Witness for C9 on concrete fresh caches. -/
theorem c9_set_never_fails_witness :
    1 ≤ (NewMinervaCache 1).capacity ∧
    (∃ st', (NewMinervaCache 1).Set "b" "k" [7]
        ⟨0, EvictionPolicy.LRUEvictionPolicy⟩ 0 = some st') ∧
    ((NewMinervaCache 1).Delete "b" "k").2 ≠ some CacheError.cacheFull :=
  ⟨by decide,
   c9_set_never_fails.1 (NewMinervaCache 1) "b" "k" [7]
     ⟨0, EvictionPolicy.LRUEvictionPolicy⟩ 0 (by decide),
   c9_set_never_fails.2.2 (NewMinervaCache 1) "b" "k"⟩
